import Mathlib

/-!
Verification of the authorization / visibility model of the Enterprise
Resource Management System backend (Django), shallowly embedded in Lean.

The embedding mirrors `src/backend/apps/projects` (models, permissions,
serializers, views) and `src/backend/apps/audit/signals.py`.  Database
tables become lists of records; each HTTP handler or helper becomes a
function from a database value (plus the current time and request data) to
an outcome and an updated database.
-/

namespace ERMS

/-- ASCII lower-casing of one character, as Python's `str.lower()` acts on
the ASCII addresses involved here. -/
def lowerChar (c : Char) : Char :=
  if 65 ≤ c.toNat ∧ c.toNat ≤ 90 then Char.ofNat (c.toNat + 32) else c

/-- `s.lower()` on an ASCII string. -/
def strLower (s : String) : String := ⟨s.data.map lowerChar⟩

/-- A user row (`apps/users/models.py`, class `User`).  Only the fields the
authorization model consults are kept: primary key, unique email, and the
system role, which is `"ADMIN"` or `"EMPLOYEE"` (`ROLE_CHOICES`). -/
structure User where
  id : Nat
  email : String
  role : String
  deriving Repr, DecidableEq

/-- A project row (`apps/projects/models.py`, class `Project`): primary key
and the nullable `manager` foreign key (a user id). -/
structure Project where
  id : Nat
  manager : Option Nat
  deriving Repr, DecidableEq

/-- A project-membership row (`apps/projects/models.py`, class
`ProjectMember`): the through table of the `Project.members` many-to-many,
with a per-project role string and an `is_active` flag. -/
structure ProjectMember where
  project : Nat
  user : Nat
  role : String
  is_active : Bool
  deriving Repr, DecidableEq

/-- A project-invitation row (`apps/projects/models.py`, class
`ProjectInvitation`): status is one of `PENDING / ACCEPTED / REJECTED /
EXPIRED`; `expires_at` and `accepted_at` are timestamps (modelled as `Nat`
seconds).  The same record shape also serves the parallel
`invitation_models.py` model, whose fields coincide. -/
structure Invitation where
  id : Nat
  project : Nat
  email : String
  role : String
  token : Nat
  inv_status : String
  message : String
  expires_at : Nat
  accepted_at : Option Nat
  deriving Repr, DecidableEq

/-- A task row (`apps/tasks/models.py`, class `Task`): only the project
foreign key matters for the claims below. -/
structure Task where
  id : Nat
  project : Nat
  deriving Repr, DecidableEq

/-- The relational store: one list per table, plus a counter supplying
fresh primary keys (Django uses fresh UUIDs; freshness is what matters). -/
structure DB where
  users : List User
  projects : List Project
  members : List ProjectMember
  invitations : List Invitation
  tasks : List Task
  nextId : Nat
  deriving Repr, DecidableEq

/-! ## Permission helpers (`apps/projects/permissions.py`) -/

/-- `can_user_access_project(user, project)`
(`apps/projects/permissions.py` lines 132-145): ADMIN short-circuits to
`True`; otherwise an active `ProjectMember` row must exist. -/
def can_user_access_project (db : DB) (u : User) (p : Project) : Bool :=
  if u.role == "ADMIN" then
    true
  else
    db.members.any fun m => m.project == p.id && m.user == u.id && m.is_active

/-- `can_user_manage_project(user, project)`
(`apps/projects/permissions.py` lines 148-161): ADMIN short-circuits to
`True`; otherwise `ProjectMember.objects.get(project, user, is_active=True)`
is fetched (modelled by `find?`) and its role compared to `LEAD`. -/
def can_user_manage_project (db : DB) (u : User) (p : Project) : Bool :=
  if u.role == "ADMIN" then
    true
  else
    match db.members.find? (fun m => m.project == p.id && m.user == u.id && m.is_active) with
    | some m => m.role == "LEAD"
    | none => false

/-! ## Project listing (`apps/projects/views.py`, `ProjectViewSet.get_queryset`)

For `action == 'list'` (and no optional query-string filters, which only
further restrict the rows) the queryset is
`Project.objects.filter(Q(manager=user) | Q(members=user)).distinct()`.
`members=user` joins through the `ProjectMember` table with NO condition on
`is_active`. -/

/-- The `list`-action queryset of `ProjectViewSet.get_queryset`
(`apps/projects/views.py` lines 53-89), with no query-string filters. -/
def get_queryset_list (db : DB) (u : User) : List Project :=
  db.projects.filter fun p =>
    p.manager == some u.id || db.members.any fun m => m.project == p.id && m.user == u.id

end ERMS

namespace ERMS

/-- Membership-row uniqueness delivered by the DB constraint
`unique_together = ['project', 'user']` on `ProjectMember`: two rows for
the same (project, user) pair are the same row. -/
def membersUnique (db : DB) : Prop :=
  ∀ a ∈ db.members, ∀ b ∈ db.members, a.project = b.project → a.user = b.user → a = b

/-- Primary-key uniqueness of invitation rows. -/
def invitationIdsUnique (db : DB) : Prop :=
  ∀ a ∈ db.invitations, ∀ b ∈ db.invitations, a.id = b.id → a = b

/-! ## Invitation workflow (`apps/projects/views.py`, `serializers.py`) -/

/-- The ORM pattern `invitation.<field> = v; invitation.save()`: rewrite the
row whose primary key is `t` with `g`, leaving every other row alone. -/
def update_inv_rows (db : DB) (t : Nat) (g : Invitation → Invitation) : DB :=
  { db with invitations := db.invitations.map fun i => if i.id == t then g i else i }

/-- `invitation.status = s; invitation.save()`. -/
def set_inv_status (db : DB) (t : Nat) (s : String) : DB :=
  update_inv_rows db t fun i => { i with inv_status := s }

/-- `invitation.status = 'ACCEPTED'; invitation.accepted_at = timezone.now();
invitation.save()` (`apps/projects/views.py` lines 397-400). -/
def mark_accepted (db : DB) (t : Nat) (now : Nat) : DB :=
  update_inv_rows db t fun i => { i with inv_status := "ACCEPTED", accepted_at := some now }

/-- Outcomes of `ProjectViewSet.accept_invitation`.  `invalidToken`,
`invalidState` and `expiredErr` come from
`AcceptInvitationSerializer.validate_token`
(`apps/projects/serializers.py` lines 295-314). -/
inductive AcceptResult where
  | invalidToken
  | invalidState (s : String)
  | expiredErr
  | noUser
  | alreadyMember (projectId : Nat)
  | joined (projectId : Nat) (role : String)
  deriving Repr, DecidableEq

set_option linter.unusedVariables false in
/-- `ProjectViewSet.accept_invitation` (`apps/projects/views.py` lines
346-412).  The serializer validates the token (existence, `PENDING` status,
expiry — marking the row `EXPIRED` on an expired check,
`ProjectInvitation.is_expired` being `timezone.now() > expires_at`); the
handler then looks up the account whose email equals the invited email, and
either reports the idempotent already-member case or creates the
membership and marks the invitation accepted.  The authenticated acting
user is taken from the request but never read by the handler. -/
def accept_invitation (db : DB) (now : Nat) (actingUser : User) (token : Nat) :
    AcceptResult × DB :=
  match db.invitations.find? (fun i => i.token == token) with
  | none => (.invalidToken, db)
  | some inv =>
    if inv.inv_status != "PENDING" then
      (.invalidState inv.inv_status, db)
    else if now > inv.expires_at then
      (.expiredErr, set_inv_status db inv.id "EXPIRED")
    else
      match db.users.find? (fun us => us.email == inv.email) with
      | none => (.noUser, db)
      | some us =>
        if db.members.any (fun m => m.project == inv.project && m.user == us.id && m.is_active) then
          (.alreadyMember inv.project, set_inv_status db inv.id "ACCEPTED")
        else
          (.joined inv.project inv.role,
            mark_accepted
              { db with members := db.members ++ [⟨inv.project, us.id, inv.role, true⟩] }
              inv.id now)

/-- Outcomes of `ProjectViewSet.reject_invitation`. -/
inductive RejectResult where
  | invalidToken
  | invalidState (s : String)
  | expiredErr
  | rejected
  deriving Repr, DecidableEq

/-- `ProjectViewSet.reject_invitation` (`apps/projects/views.py` lines
415-437): the same `AcceptInvitationSerializer` validation runs first, so
the status is set to `REJECTED` only after the token was found `PENDING`
and unexpired. -/
def reject_invitation (db : DB) (now : Nat) (token : Nat) : RejectResult × DB :=
  match db.invitations.find? (fun i => i.token == token) with
  | none => (.invalidToken, db)
  | some inv =>
    if inv.inv_status != "PENDING" then
      (.invalidState inv.inv_status, db)
    else if now > inv.expires_at then
      (.expiredErr, set_inv_status db inv.id "EXPIRED")
    else
      (.rejected, set_inv_status db inv.id "REJECTED")

/-- Outcomes of the resend / update invitation endpoints. -/
inductive ManageInvResult where
  | notFound
  | ok
  deriving Repr, DecidableEq

/-- `ProjectViewSet.resend_invitation` (`apps/projects/views.py` lines
440-479): fetches the invitation by (id, project, status='PENDING'); when
expired, pushes `expires_at` seven days out; never touches `status`. -/
def resend_invitation (db : DB) (now : Nat) (projectId invId : Nat) : ManageInvResult × DB :=
  match db.invitations.find?
      (fun i => i.id == invId && i.project == projectId && i.inv_status == "PENDING") with
  | none => (.notFound, db)
  | some inv =>
    if now > inv.expires_at then
      (.ok, update_inv_rows db inv.id fun i => { i with expires_at := now + 7 * 86400 })
    else
      (.ok, db)

/-- `ProjectViewSet.update_invitation` (`apps/projects/views.py` lines
513-554): fetches the invitation by (id, project, status='PENDING') and
rewrites the role and/or message fields only. -/
def update_invitation (db : DB) (projectId invId : Nat)
    (newRole newMessage : Option String) : ManageInvResult × DB :=
  match db.invitations.find?
      (fun i => i.id == invId && i.project == projectId && i.inv_status == "PENDING") with
  | none => (.notFound, db)
  | some inv =>
    (.ok, update_inv_rows db inv.id fun i =>
      { i with role := newRole.getD i.role, message := newMessage.getD i.message })

/-! ## The parallel invitation endpoint
(`apps/projects/invitation_views.py`, `apps/projects/invitation_models.py`) -/

/-- `invitation_models.ProjectInvitation.is_expired` (lines 51-52): past
expiry AND still `PENDING`. -/
def inv_model_is_expired (i : Invitation) (now : Nat) : Bool :=
  now > i.expires_at && i.inv_status == "PENDING"

/-- `invitation_models.ProjectInvitation.accept` (lines 54-68): on an
expired pending invitation marks it `EXPIRED` and reports failure;
otherwise marks it `ACCEPTED` with the accepted timestamp and reports
success.  The member-creation call is commented out in the source, so no
membership row is written. -/
def inv_model_accept (db : DB) (now : Nat) (inv : Invitation) : Bool × DB :=
  if inv_model_is_expired inv now then
    (false, set_inv_status db inv.id "EXPIRED")
  else
    (true, mark_accepted db inv.id now)

/-- Outcomes of `ProjectInvitationViewSet.accept_invitation`. -/
inductive InvViewAcceptResult where
  | notFound
  | emailMismatch
  | expiredErr
  | accepted (projectId : Nat)
  deriving Repr, DecidableEq

/-- `ProjectInvitationViewSet.accept_invitation`
(`apps/projects/invitation_views.py` lines 91-125): looks the token up,
rejects the request with a forbidden error when the invited email differs
(case-insensitively) from the acting user's email, and otherwise delegates
to `ProjectInvitation.accept`. -/
def invitation_views_accept (db : DB) (now : Nat) (actingUser : User) (token : Nat) :
    InvViewAcceptResult × DB :=
  match db.invitations.find? (fun i => i.token == token) with
  | none => (.notFound, db)
  | some inv =>
    if strLower inv.email != strLower actingUser.email then
      (.emailMismatch, db)
    else
      match inv_model_accept db now inv with
      | (true, db2) => (.accepted inv.project, db2)
      | (false, db2) => (.expiredErr, db2)

/-! ## Inviting members (`InviteMembersSerializer` + `ProjectViewSet.invite_members`) -/

/-- The loop body of `InviteMembersSerializer.validate_emails`
(`apps/projects/serializers.py` lines 243-257): walk the requested list
keeping the first spelling of each address, tracking the lowercased forms
already seen. -/
def validate_emails_go (seen : List String) : List String → List String
  | [] => []
  | e :: rest =>
    if seen.contains (strLower e) then validate_emails_go seen rest
    else e :: validate_emails_go (seen ++ [strLower e]) rest

/-- `InviteMembersSerializer.validate_emails`
(`apps/projects/serializers.py` lines 243-257): deduplicate
case-insensitively while keeping the first spelling of each address. -/
def validate_emails (emails : List String) : List String :=
  validate_emails_go [] emails

/-- `InviteMembersSerializer.validate` (`apps/projects/serializers.py`
lines 259-292): reject when one of the requested addresses belongs to an
active member (`user__email__in=emails`), or when a `PENDING` invitation
row carries one of the requested addresses (`email__in=emails`).  The
store is MySQL with `charset utf8mb4` and the case-insensitive
`utf8mb4_unicode_ci` collation (`config/settings.py` lines 101-115), so
both lookups compare addresses case-insensitively; the comparison is
modelled by equality of the lowercased strings. -/
def invite_validate (db : DB) (projectId : Nat) (emails : List String) : Bool :=
  let memberHit := db.members.any fun m =>
    m.project == projectId && m.is_active &&
      db.users.any fun us =>
        us.id == m.user && emails.any fun e => strLower e == strLower us.email
  let pendingHit := db.invitations.any fun i =>
    i.project == projectId && i.inv_status == "PENDING"
      && emails.any fun e => strLower e == strLower i.email
  !memberHit && !pendingHit

/-- Outcomes of `ProjectViewSet.invite_members`. -/
inductive InviteResult where
  | conflict
  | invited (emails : List String)
  deriving Repr, DecidableEq

/-- `ProjectViewSet.invite_members` (`apps/projects/views.py` lines
268-317): after the serializer validates, one `ProjectInvitation` row is
created per email with `email=email.lower()`, status `PENDING`, a fresh
token, and a seven-day expiry set by `ProjectInvitation.save`. -/
def invite_members (db : DB) (now : Nat) (projectId : Nat) (emails : List String)
    (role message : String) : InviteResult × DB :=
  let emails := validate_emails emails
  if invite_validate db projectId emails then
    (.invited emails,
      { db with
          invitations := db.invitations ++ emails.enum.map fun e =>
            { id := db.nextId + e.1
              project := projectId
              email := strLower e.2
              role := role
              token := db.nextId + e.1
              inv_status := "PENDING"
              message := message
              expires_at := now + 7 * 86400
              accepted_at := none }
          nextId := db.nextId + emails.length })
  else
    (.conflict, db)

/-! ## Project creation (`ProjectCreateSerializer.create`) -/

/-- `ProjectCreateSerializer.create` (`apps/projects/serializers.py` lines
118-157), reached only from the authenticated `ProjectViewSet.create`
handler after validation: the manager defaults to the creator, the project
row is inserted, and the creator is auto-added as an active `LEAD`
`ProjectMember`.  Returns the new project id. -/
def create_project (db : DB) (creator : User) (manager : Option Nat) : Nat × DB :=
  let pid := db.nextId
  let mgr := match manager with
    | some m => some m
    | none => some creator.id
  (pid,
    { db with
        projects := db.projects ++ [{ id := pid, manager := mgr }]
        members := db.members ++ [{ project := pid, user := creator.id, role := "LEAD", is_active := true }]
        nextId := db.nextId + 1 })

/-! ## Project deletion (`ProjectViewSet.destroy`) -/

/-- Outcomes of `ProjectViewSet.destroy`. -/
inductive DestroyResult where
  | errorHasTasks
  | deleted
  deriving Repr, DecidableEq

/-- `ProjectViewSet.destroy` (`apps/projects/views.py` lines 144-162): a
project with any task is refused with HTTP 400 `'Cannot delete project
with existing tasks'`; otherwise `instance.delete()` removes the project
and, by the `on_delete=CASCADE` foreign keys, its membership and
invitation rows. -/
def destroy_project (db : DB) (projectId : Nat) : DestroyResult × DB :=
  if db.tasks.any (fun t => t.project == projectId) then
    (.errorHasTasks, db)
  else
    (.deleted,
      { db with
          projects := db.projects.filter fun p => p.id != projectId
          members := db.members.filter fun m => m.project != projectId
          invitations := db.invitations.filter fun i => i.project != projectId })

/-! ## Audit recorder (`apps/audit/signals.py`) -/

/-- The `changes` payload handed to `AuditLog.log`: either the
`{'action': 'created'}` marker dict or a dict of per-field old/new
values. -/
inductive Changes where
  | createdMarker
  | fieldDiff (fs : List (String × String × String))
  deriving Repr, DecidableEq

/-- Python truthiness of the `changes` dict: the marker dict is non-empty,
a field diff is truthy iff it has at least one entry. -/
def changes_truthy : Changes → Bool
  | .createdMarker => true
  | .fieldDiff fs => !fs.isEmpty

/-- `get_model_changes(instance)` (`apps/audit/signals.py` lines 23-45):
without a persisted primary key (or when no stored row matches it) the
created marker is returned; otherwise every persisted field of the stored
snapshot is compared with the in-memory instance and the changed ones are
collected as (name, old, new).  `fields` lists each field as
(name, stored value, instance value). -/
def get_model_changes (pkStored : Bool) (fields : List (String × String × String)) : Changes :=
  if !pkStored then
    .createdMarker
  else
    .fieldDiff (fields.filter fun f => f.2.1 != f.2.2)

/-- An audit record as written by `AuditLog.log`
(`apps/audit/models.py` lines 50-76), restricted to the fields the claims
concern. -/
structure AuditEntry where
  action : String
  changes : Changes
  deriving Repr, DecidableEq

/-- `log_model_save` (`apps/audit/signals.py` lines 48-67): for audited
senders, `action` is `CREATE` or `UPDATE` and `changes` is the created
marker on creation, else the computed diff; the record is written only
when `changes and changes != {'action': 'created'}`. -/
def log_model_save (audited : Bool) (created : Bool) (pkStored : Bool)
    (fields : List (String × String × String)) : Option AuditEntry :=
  if !audited then
    none
  else
    let action := if created then "CREATE" else "UPDATE"
    let changes := if created then Changes.createdMarker else get_model_changes pkStored fields
    if changes_truthy changes && changes != Changes.createdMarker then
      some { action := action, changes := changes }
    else
      none

end ERMS

namespace ERMSThm

open ERMS

/-- C2, counterexample.  The claim says `canViewProject(u, P)` holds iff u
is P's manager or an active member, and that `u.role == ADMIN` is not by
itself sufficient.  In the code an ADMIN who is neither manager nor member
is granted access, and conversely P's manager, when an EMPLOYEE without a
membership row, is denied. -/
theorem can_view_claim_false :
    (let admin : User := ⟨1, "admin@x.com", "ADMIN"⟩
     let mgr : User := ⟨2, "mgr@x.com", "EMPLOYEE"⟩
     let p : Project := ⟨10, some 2⟩
     let db : DB := ⟨[admin, mgr], [p], [], [], [], 100⟩
     can_user_access_project db admin p = true
       ∧ p.manager ≠ some admin.id
       ∧ db.members = []
       ∧ can_user_access_project db mgr p = false
       ∧ p.manager = some mgr.id) := by
  refine ⟨rfl, by decide, rfl, rfl, rfl⟩

/-- C2, amended.  `can_user_access_project(u, P)` returns true iff u is a
system ADMIN or there exists an active ProjectMember(P, u) row; the
project's `manager` field is not consulted. -/
theorem can_view_iff_admin_or_active_member (db : DB) (u : User) (p : Project) :
    can_user_access_project db u p = true ↔
      u.role = "ADMIN" ∨
        ∃ m ∈ db.members, m.project = p.id ∧ m.user = u.id ∧ m.is_active = true := by
  by_cases h : u.role = "ADMIN"
  · simp [can_user_access_project, h]
  · simp [can_user_access_project, h, List.any_eq_true, and_assoc]

/-- C3, counterexample.  The claim says `canManageProject(u, P)` holds iff
u's active project role in P is LEAD, and that a system ADMIN who is not a
LEAD member gains nothing.  In the code an ADMIN with no membership row at
all is granted management rights. -/
theorem can_manage_claim_false :
    (let admin : User := ⟨1, "admin@x.com", "ADMIN"⟩
     let p : Project := ⟨10, none⟩
     let db : DB := ⟨[admin], [p], [], [], [], 100⟩
     can_user_manage_project db admin p = true ∧ db.members = []) := by
  exact ⟨rfl, rfl⟩

/-- C3, amended.  Under the (project, user) uniqueness constraint on
membership rows, `can_user_manage_project(u, P)` returns true iff u is a
system ADMIN or u has an active ProjectMember(P, u) row whose role is LEAD. -/
theorem can_manage_iff_admin_or_active_lead (db : DB) (u : User) (p : Project)
    (huniq : membersUnique db) :
    can_user_manage_project db u p = true ↔
      u.role = "ADMIN" ∨
        ∃ m ∈ db.members,
          m.project = p.id ∧ m.user = u.id ∧ m.is_active = true ∧ m.role = "LEAD" := by
  by_cases h : u.role = "ADMIN"
  · simp [can_user_manage_project, h]
  · have hb : (u.role == "ADMIN") = false := by
      simp [h]
    cases hfind : db.members.find?
        (fun m => m.project == p.id && m.user == u.id && m.is_active) with
    | none =>
      have hred : can_user_manage_project db u p = false := by
        simp [can_user_manage_project, hb, hfind]
      rw [hred]
      simp only [Bool.false_eq_true, false_iff]
      rintro (hr | ⟨m, hm, h1, h2, h3, _⟩)
      · exact h hr
      · have := List.find?_eq_none.mp hfind m hm
        simp [h1, h2, h3] at this
    | some m0 =>
      have hred : can_user_manage_project db u p = (m0.role == "LEAD") := by
        simp [can_user_manage_project, hb, hfind]
      have hm0mem : m0 ∈ db.members := List.mem_of_find?_eq_some hfind
      have hm0pred := List.find?_some hfind
      simp only [Bool.and_eq_true, beq_iff_eq] at hm0pred
      rw [hred]
      constructor
      · intro hlead
        simp only [beq_iff_eq] at hlead
        exact Or.inr ⟨m0, hm0mem, hm0pred.1.1, hm0pred.1.2, hm0pred.2, hlead⟩
      · rintro (hr | ⟨m, hm, h1, h2, h3, h4⟩)
        · exact absurd hr h
        · have heq : m = m0 :=
            huniq m hm m0 hm0mem (h1.trans hm0pred.1.1.symm) (h2.trans hm0pred.1.2.symm)
          rw [← heq]
          simp [h4]

/-- C3, witness for the amended theorem: a LEAD member of a concrete
one-project database is granted management rights. -/
theorem can_manage_iff_admin_or_active_lead_witness :
    can_user_manage_project
        ⟨[⟨1, "lead@x.com", "EMPLOYEE"⟩], [⟨10, none⟩], [⟨10, 1, "LEAD", true⟩], [], [], 100⟩
        ⟨1, "lead@x.com", "EMPLOYEE"⟩ ⟨10, none⟩ = true := by
  have h := can_manage_iff_admin_or_active_lead
      ⟨[⟨1, "lead@x.com", "EMPLOYEE"⟩], [⟨10, none⟩], [⟨10, 1, "LEAD", true⟩], [], [], 100⟩
      ⟨1, "lead@x.com", "EMPLOYEE"⟩ ⟨10, none⟩ (by
        intro a ha b hb hp hu
        simp only [List.mem_singleton] at ha hb
        rw [ha, hb])
  exact h.mpr (Or.inr ⟨⟨10, 1, "LEAD", true⟩, by simp, rfl, rfl, rfl, rfl⟩)

/-- C1, counterexample.  The claim says the listing contains P iff the user
is P's manager or has an ACTIVE ProjectMember row.  In the code the
`Q(members=user)` join ignores `is_active`: a user whose only membership
row is inactive, and who is not the manager, still sees the project. -/
theorem list_visible_claim_false :
    (let u : User := ⟨1, "dev@x.com", "EMPLOYEE"⟩
     let p : Project := ⟨10, some 99⟩
     let db : DB := ⟨[u], [p], [⟨10, 1, "DEVELOPER", false⟩], [], [], 100⟩
     get_queryset_list db u = [p]
       ∧ p.manager ≠ some u.id
       ∧ ∀ m ∈ db.members, m.is_active = false) := by
  refine ⟨rfl, by decide, ?_⟩
  intro m hm
  simp only [List.mem_singleton] at hm
  rw [hm]

/-- C1, amended.  For every user u (of either system role) and project P,
the listing queryset contains P iff P is stored and u is P's manager or u
has a ProjectMember row for P regardless of its `is_active` flag; a system
ADMIN sees nothing beyond that (the filter never consults `u.role`). -/
theorem list_visible_iff_manager_or_member_row (db : DB) (u : User) (p : Project) :
    p ∈ get_queryset_list db u ↔
      p ∈ db.projects ∧
        (p.manager = some u.id ∨ ∃ m ∈ db.members, m.project = p.id ∧ m.user = u.id) := by
  unfold get_queryset_list
  rw [List.mem_filter]
  constructor
  · rintro ⟨hp, hcond⟩
    refine ⟨hp, ?_⟩
    simp only [Bool.or_eq_true, beq_iff_eq, List.any_eq_true, Bool.and_eq_true] at hcond
    rcases hcond with hmgr | ⟨m, hm, hpr, hus⟩
    · exact Or.inl hmgr
    · exact Or.inr ⟨m, hm, by simpa using hpr, by simpa using hus⟩
  · rintro ⟨hp, hmgr | ⟨m, hm, h1, h2⟩⟩
    · exact ⟨hp, by simp [hmgr]⟩
    · refine ⟨hp, ?_⟩
      simp only [Bool.or_eq_true, List.any_eq_true, Bool.and_eq_true]
      exact Or.inr ⟨m, hm, by simp [h1], by simp [h2]⟩

/-! ## Shared lemmas about row updates -/

/-- In a list of invitations with unique primary keys, any row sharing the
id of a known row is that row. -/
theorem mem_id_eq_of_uniq (l : List Invitation)
    (huniq : ∀ a ∈ l, ∀ b ∈ l, a.id = b.id → a = b)
    (inv : Invitation) (hinv : inv ∈ l) :
    ∀ j ∈ l, j.id = inv.id → j = inv := by
  intro j hj hid
  exact huniq j hj inv hinv hid

/-- Rewriting the row with primary key `t` by an id-preserving `g` leaves
the status of every row sharing `inv`'s id intact, provided either `inv`
is not the target or `g` preserves statuses. -/
theorem map_rows_keeps_status (l : List Invitation) (t : Nat) (g : Invitation → Invitation)
    (hg : ∀ i, (g i).id = i.id)
    (huniq : ∀ a ∈ l, ∀ b ∈ l, a.id = b.id → a = b)
    (inv : Invitation) (hinv : inv ∈ l)
    (hok : inv.id ≠ t ∨ ∀ i, (g i).inv_status = i.inv_status) :
    ∀ j ∈ l.map (fun i => if i.id == t then g i else i),
      j.id = inv.id → j.inv_status = inv.inv_status := by
  intro j hj hid
  simp only [List.mem_map] at hj
  obtain ⟨a, ha, hfa⟩ := hj
  cases hta : (a.id == t) with
  | false =>
    rw [hta] at hfa
    simp only [Bool.false_eq_true, if_false] at hfa
    rw [← hfa] at hid ⊢
    rw [huniq a ha inv hinv hid]
  | true =>
    rw [hta] at hfa
    simp only [if_true] at hfa
    have haid : a.id = t := by simpa using hta
    have hjid : j.id = a.id := by rw [← hfa, hg]
    rcases hok with hne | hstat
    · exact absurd (by rw [← hid, hjid, haid] : inv.id = t) hne
    · have haeq : a = inv := huniq a ha inv hinv (hjid ▸ hid)
      rw [← hfa, hstat a, haeq]

/-! ## C4: accepting an expired invitation -/

/-- C4, counterexample.  The claim quantifies over every invitation past
its expiry, but a non-PENDING one (here already ACCEPTED) fails the accept
attempt with the `Invitation is {status}` validation error, not the
expired error, and its status is not transitioned to EXPIRED. -/
theorem accept_expired_claim_false :
    (let inv : Invitation := ⟨5, 10, "b@x.com", "DEVELOPER", 77, "ACCEPTED", "", 50, some 40⟩
     let u : User := ⟨2, "b@x.com", "EMPLOYEE"⟩
     let db : DB := ⟨[u], [⟨10, none⟩], [], [inv], [], 100⟩
     accept_invitation db 60 u 77 = (AcceptResult.invalidState "ACCEPTED", db)
       ∧ inv.expires_at < 60
       ∧ ∀ j ∈ (accept_invitation db 60 u 77).2.invitations, j.inv_status = "ACCEPTED") := by
  decide

/-- C4, amended (restricted to PENDING invitations, as the counterexample
forces).  Accepting a PENDING invitation whose expiry lies before the
current time fails with the expired error, flips that invitation's status
to EXPIRED as a side effect of the check, and creates no ProjectMember
row. -/
theorem accept_expired_pending_fails (db : DB) (now : Nat) (actingUser : User)
    (token : Nat) (inv : Invitation)
    (hfind : db.invitations.find? (fun i => i.token == token) = some inv)
    (hpend : inv.inv_status = "PENDING")
    (hexp : inv.expires_at < now) :
    (accept_invitation db now actingUser token).1 = AcceptResult.expiredErr
      ∧ (accept_invitation db now actingUser token).2.members = db.members
      ∧ ∀ j ∈ (accept_invitation db now actingUser token).2.invitations,
          j.id = inv.id → j.inv_status = "EXPIRED" := by
  have hres : accept_invitation db now actingUser token =
      (AcceptResult.expiredErr, set_inv_status db inv.id "EXPIRED") := by
    unfold accept_invitation
    rw [hfind]
    simp [hpend, hexp]
  refine ⟨by rw [hres], by rw [hres]; rfl, ?_⟩
  rw [hres]
  intro j hj hid
  simp only [set_inv_status, update_inv_rows, List.mem_map] at hj
  obtain ⟨a, ha, hfa⟩ := hj
  cases hta : (a.id == inv.id) with
  | true =>
    rw [hta] at hfa
    simp only [if_true] at hfa
    rw [← hfa]
  | false =>
    rw [hta] at hfa
    simp only [Bool.false_eq_true, if_false] at hfa
    rw [← hfa] at hid
    rw [hid] at hta
    simp at hta

/-- C4, witness for the amended theorem: a concrete PENDING invitation past
its expiry produces the expired error. -/
theorem accept_expired_pending_fails_witness :
    (accept_invitation ⟨[], [], [],
        [⟨5, 10, "b@x.com", "DEVELOPER", 77, "PENDING", "", 50, none⟩], [], 100⟩
      60 ⟨1, "a@x.com", "EMPLOYEE"⟩ 77).1 = AcceptResult.expiredErr :=
  (accept_expired_pending_fails
    ⟨[], [], [], [⟨5, 10, "b@x.com", "DEVELOPER", 77, "PENDING", "", 50, none⟩], [], 100⟩
    60 ⟨1, "a@x.com", "EMPLOYEE"⟩ 77
    ⟨5, 10, "b@x.com", "DEVELOPER", 77, "PENDING", "", 50, none⟩ rfl rfl (by decide)).1

/-! ## C5: accepting with a mismatched email -/

/-- C5, counterexample.  The claim says an acting user whose email differs
from the invited email fails with an EmailMismatch error, with no member
row created and the invitation not marked ACCEPTED.  In
`ProjectViewSet.accept_invitation` the acting user is never consulted: the
call succeeds, creates the membership for the account holding the invited
email, and marks the invitation ACCEPTED. -/
theorem accept_email_mismatch_claim_false :
    (let a : User := ⟨1, "a@x.com", "EMPLOYEE"⟩
     let db : DB := ⟨[a, ⟨2, "b@x.com", "EMPLOYEE"⟩], [⟨10, none⟩], [],
       [⟨5, 10, "b@x.com", "DEVELOPER", 77, "PENDING", "", 100, none⟩], [], 200⟩
     a.email ≠ "b@x.com"
       ∧ (accept_invitation db 0 a 77).1 = AcceptResult.joined 10 "DEVELOPER"
       ∧ (accept_invitation db 0 a 77).2.members = [⟨10, 2, "DEVELOPER", true⟩]
       ∧ ∀ j ∈ (accept_invitation db 0 a 77).2.invitations, j.inv_status = "ACCEPTED") := by
  decide

/-- C5, amended (restricted to the `ProjectInvitationViewSet` accept
endpoint, the one that does compare emails; the `ProjectViewSet` endpoint
ignores the acting user, as the counterexample shows).  When the invited
email differs case-insensitively from the acting user's email, the accept
attempt fails with the forbidden email-mismatch error and the database is
unchanged: no member row is created and the invitation is not marked
ACCEPTED. -/
theorem invitation_views_accept_email_mismatch (db : DB) (now : Nat) (u : User)
    (token : Nat) (inv : Invitation)
    (hfind : db.invitations.find? (fun i => i.token == token) = some inv)
    (hmail : strLower inv.email ≠ strLower u.email) :
    invitation_views_accept db now u token = (InvViewAcceptResult.emailMismatch, db) := by
  unfold invitation_views_accept
  rw [hfind]
  simp [hmail]

/-- C5, witness for the amended theorem at a concrete mismatching pair. -/
theorem invitation_views_accept_email_mismatch_witness :
    (let db : DB := ⟨[], [], [],
        [⟨5, 10, "b@x.com", "DEVELOPER", 77, "PENDING", "", 100, none⟩], [], 200⟩
     invitation_views_accept db 0 ⟨1, "a@x.com", "EMPLOYEE"⟩ 77 =
       (InvViewAcceptResult.emailMismatch, db)) :=
  invitation_views_accept_email_mismatch
    ⟨[], [], [], [⟨5, 10, "b@x.com", "DEVELOPER", 77, "PENDING", "", 100, none⟩], [], 200⟩
    0 ⟨1, "a@x.com", "EMPLOYEE"⟩ 77
    ⟨5, 10, "b@x.com", "DEVELOPER", 77, "PENDING", "", 100, none⟩ rfl (by decide)

/-! ## C8: terminal invitation statuses are frozen -/

/-- C8, confirmed for the invitation operations of `ProjectViewSet`: once
an invitation's status is terminal (ACCEPTED, REJECTED or EXPIRED), none
of accept, reject, resend or update ever changes it — accept and reject
are guarded by the serializer's PENDING check and resend/update fetch with
`status='PENDING'` and never write the status field; moreover reject
reaches its REJECTED write only when the token's invitation is currently
PENDING. -/
theorem invitation_terminal_status_frozen (db : DB) (now tok pid invId : Nat)
    (actingUser : User) (newRole newMessage : Option String) (inv : Invitation)
    (huniq : invitationIdsUnique db) (hinv : inv ∈ db.invitations)
    (hterm : inv.inv_status = "ACCEPTED" ∨ inv.inv_status = "REJECTED"
      ∨ inv.inv_status = "EXPIRED") :
    (∀ j ∈ (accept_invitation db now actingUser tok).2.invitations,
        j.id = inv.id → j.inv_status = inv.inv_status)
    ∧ (∀ j ∈ (reject_invitation db now tok).2.invitations,
        j.id = inv.id → j.inv_status = inv.inv_status)
    ∧ (∀ j ∈ (resend_invitation db now pid invId).2.invitations,
        j.id = inv.id → j.inv_status = inv.inv_status)
    ∧ (∀ j ∈ (update_invitation db pid invId newRole newMessage).2.invitations,
        j.id = inv.id → j.inv_status = inv.inv_status)
    ∧ ((reject_invitation db now tok).1 = RejectResult.rejected →
        ∃ i ∈ db.invitations, i.token = tok ∧ i.inv_status = "PENDING") := by
  have hsame : ∀ j ∈ db.invitations, j.id = inv.id → j.inv_status = inv.inv_status := by
    intro j hj hid
    rw [mem_id_eq_of_uniq db.invitations huniq inv hinv j hj hid]
  have hne : ∀ inv2 ∈ db.invitations, inv2.inv_status = "PENDING" → inv.id ≠ inv2.id := by
    intro inv2 h2 hp heq
    have h := huniq inv hinv inv2 h2 heq
    rw [h, hp] at hterm
    rcases hterm with h1 | h1 | h1 <;> exact absurd h1 (by decide)
  refine ⟨?_, ?_, ?_, ?_, ?_⟩
  · unfold accept_invitation
    split
    next => exact hsame
    next inv2 hf =>
      have h2mem : inv2 ∈ db.invitations := List.mem_of_find?_eq_some hf
      split
      next => exact hsame
      next hbne =>
        have hp : inv2.inv_status = "PENDING" := by simpa using hbne
        have hne2 : inv.id ≠ inv2.id := hne inv2 h2mem hp
        split
        next =>
          exact map_rows_keeps_status db.invitations inv2.id (fun i => { i with inv_status := "EXPIRED" }) (fun i => rfl)
            huniq inv hinv (Or.inl hne2)
        next =>
          split
          next => exact hsame
          next us hfu =>
            split
            next =>
              exact map_rows_keeps_status db.invitations inv2.id (fun i => { i with inv_status := "ACCEPTED" }) (fun i => rfl)
                huniq inv hinv (Or.inl hne2)
            next =>
              exact map_rows_keeps_status db.invitations inv2.id (fun i => { i with inv_status := "ACCEPTED", accepted_at := some now }) (fun i => rfl)
                huniq inv hinv (Or.inl hne2)
  · unfold reject_invitation
    split
    next => exact hsame
    next inv2 hf =>
      have h2mem : inv2 ∈ db.invitations := List.mem_of_find?_eq_some hf
      split
      next => exact hsame
      next hbne =>
        have hp : inv2.inv_status = "PENDING" := by simpa using hbne
        have hne2 : inv.id ≠ inv2.id := hne inv2 h2mem hp
        split
        next =>
          exact map_rows_keeps_status db.invitations inv2.id (fun i => { i with inv_status := "EXPIRED" }) (fun i => rfl)
            huniq inv hinv (Or.inl hne2)
        next =>
          exact map_rows_keeps_status db.invitations inv2.id (fun i => { i with inv_status := "REJECTED" }) (fun i => rfl)
            huniq inv hinv (Or.inl hne2)
  · unfold resend_invitation
    split
    next => exact hsame
    next inv2 hf =>
      split
      next =>
        exact map_rows_keeps_status db.invitations inv2.id (fun i => { i with expires_at := now + 7 * 86400 }) (fun i => rfl)
          huniq inv hinv (Or.inr fun i => rfl)
      next => exact hsame
  · unfold update_invitation
    split
    next => exact hsame
    next inv2 hf =>
      exact map_rows_keeps_status db.invitations inv2.id (fun i => { i with role := newRole.getD i.role, message := newMessage.getD i.message }) (fun i => rfl)
        huniq inv hinv (Or.inr fun i => rfl)
  · intro hrej
    unfold reject_invitation at hrej
    split at hrej
    next => simp at hrej
    next inv2 hf =>
      have h2mem : inv2 ∈ db.invitations := List.mem_of_find?_eq_some hf
      have h2tok : inv2.token = tok := by simpa using List.find?_some hf
      split at hrej
      next => simp at hrej
      next hbne =>
        have hp : inv2.inv_status = "PENDING" := by simpa using hbne
        exact ⟨inv2, h2mem, h2tok, hp⟩

/-- C8, witness: the concrete ACCEPTED invitation row found in the store
after an accept attempt on its own token still carries status ACCEPTED. -/
theorem invitation_terminal_status_frozen_witness :
    (⟨5, 10, "b@x.com", "DEVELOPER", 77, "ACCEPTED", "", 50, some 40⟩ : Invitation).inv_status =
      "ACCEPTED" :=
  (invitation_terminal_status_frozen
    ⟨[], [], [], [⟨5, 10, "b@x.com", "DEVELOPER", 77, "ACCEPTED", "", 50, some 40⟩], [], 100⟩
    60 77 0 0 ⟨1, "a@x.com", "EMPLOYEE"⟩ none none
    ⟨5, 10, "b@x.com", "DEVELOPER", 77, "ACCEPTED", "", 50, some 40⟩
    (by
      intro a ha b hb h
      simp only [List.mem_singleton] at ha hb
      rw [ha, hb])
    (by decide) (Or.inl rfl)).1
    ⟨5, 10, "b@x.com", "DEVELOPER", 77, "ACCEPTED", "", 50, some 40⟩ (by decide) rfl

/-! ## C6: duplicate PENDING invitations -/

/-- Every requested address survives the dedup loop up to lower-casing:
its lowercased form is either already in `seen` or carried by some kept
entry. -/
theorem validate_emails_go_covers : ∀ (emails seen : List String) (e : String), e ∈ emails →
    strLower e ∈ seen ∨ ∃ e2 ∈ validate_emails_go seen emails, strLower e2 = strLower e := by
  intro emails
  induction emails with
  | nil =>
    intro seen e he
    cases he
  | cons y t ih =>
    intro seen e he
    unfold validate_emails_go
    by_cases h : seen.contains (strLower y) = true
    · rw [if_pos h]
      rcases List.mem_cons.mp he with rfl | ht
      · left
        simpa using h
      · exact ih seen e ht
    · rw [if_neg h]
      rcases List.mem_cons.mp he with rfl | ht
      · right
        exact ⟨e, List.mem_cons_self _ _, rfl⟩
      · rcases ih (seen ++ [strLower y]) e ht with hseen | ⟨e2, h2, hl⟩
        · rcases List.mem_append.mp hseen with h1 | h1
          · left
            exact h1
          · right
            refine ⟨y, List.mem_cons_self _ _, ?_⟩
            simp only [List.mem_singleton] at h1
            exact h1.symm
        · right
          exact ⟨e2, List.mem_cons_of_mem _ h2, hl⟩

/-- Every requested address is represented, up to lower-casing, in the
deduplicated list the serializer validates against. -/
theorem validate_emails_covers (emails : List String) (e : String) (he : e ∈ emails) :
    ∃ e2 ∈ validate_emails emails, strLower e2 = strLower e := by
  rcases validate_emails_go_covers emails [] e he with h | h
  · cases h
  · exact h

/-- C6, confirmed: when a PENDING invitation already exists for the
project and one of the requested addresses — compared case-insensitively,
as the configured MySQL `utf8mb4_unicode_ci` collation compares the
`email__in` lookup — `invite_members` fails with the duplicate-invitation
conflict and the store is unchanged: no new invitation is created, so the
one-PENDING-per-(project, email) invariant is preserved. -/
theorem invite_duplicate_pending_conflict (db : DB) (now pid : Nat)
    (emails : List String) (role msg : String) (i : Invitation) (e : String)
    (hi : i ∈ db.invitations) (hp : i.project = pid) (hs : i.inv_status = "PENDING")
    (he : e ∈ emails) (hm : strLower e = strLower i.email) :
    invite_members db now pid emails role msg = (InviteResult.conflict, db) := by
  obtain ⟨e2, he2, hl⟩ := validate_emails_covers emails e he
  have hpend : (db.invitations.any fun j =>
      j.project == pid && j.inv_status == "PENDING"
        && (validate_emails emails).any fun e3 => strLower e3 == strLower j.email) = true := by
    rw [List.any_eq_true]
    refine ⟨i, hi, ?_⟩
    have h3 : ((validate_emails emails).any
        fun e3 => strLower e3 == strLower i.email) = true := by
      rw [List.any_eq_true]
      refine ⟨e2, he2, ?_⟩
      rw [hl, hm]
      simp
    simp [hp, hs, h3]
  have hval : invite_validate db pid (validate_emails emails) = false := by
    unfold invite_validate
    simp [hpend]
  unfold invite_members
  simp [hval]

/-- C6, witness: the concrete input with a stored lowercase pending
invitation and a request differing only in letter case is refused with
the conflict and nothing changes. -/
theorem invite_duplicate_pending_conflict_witness :
    (let db : DB := ⟨[], [⟨1, none⟩], [],
        [⟨0, 1, "bob@x.com", "DEVELOPER", 50, "PENDING", "", 1000, none⟩], [], 7⟩
     invite_members db 0 1 ["Bob@x.com"] "DEVELOPER" "" = (InviteResult.conflict, db)) :=
  invite_duplicate_pending_conflict
    ⟨[], [⟨1, none⟩], [], [⟨0, 1, "bob@x.com", "DEVELOPER", 50, "PENDING", "", 1000, none⟩], [], 7⟩
    0 1 ["Bob@x.com"] "DEVELOPER" ""
    ⟨0, 1, "bob@x.com", "DEVELOPER", 50, "PENDING", "", 1000, none⟩ "Bob@x.com"
    (by decide) rfl rfl (by decide) (by decide)

/-! ## C7: the creator becomes the sole LEAD member -/

/-- C7, confirmed: immediately after an authenticated user creates a
project, the new project has exactly one membership row, it has role LEAD,
and its user is the creator. -/
theorem create_project_sole_lead (db : DB) (creator : User) (manager : Option Nat)
    (hfresh : ∀ m ∈ db.members, m.project ≠ db.nextId) :
    ((create_project db creator manager).2.members.filter
        fun m => m.project == (create_project db creator manager).1) =
      [⟨db.nextId, creator.id, "LEAD", true⟩] := by
  show ((db.members ++ [(⟨db.nextId, creator.id, "LEAD", true⟩ : ProjectMember)]).filter
      fun m => m.project == db.nextId) = [⟨db.nextId, creator.id, "LEAD", true⟩]
  rw [List.filter_append]
  have h1 : db.members.filter (fun m => m.project == db.nextId) = [] := by
    rw [List.filter_eq_nil_iff]
    intro m hm
    simp [hfresh m hm]
  rw [h1]
  simp

/-- C7, witness: creating a project in an empty store yields the single
LEAD row for the creator. -/
theorem create_project_sole_lead_witness :
    ((create_project ⟨[], [], [], [], [], 0⟩ ⟨1, "a@x.com", "EMPLOYEE"⟩ none).2.members.filter
        fun m => m.project ==
          (create_project ⟨[], [], [], [], [], 0⟩ ⟨1, "a@x.com", "EMPLOYEE"⟩ none).1) =
      [⟨0, 1, "LEAD", true⟩] :=
  create_project_sole_lead ⟨[], [], [], [], [], 0⟩ ⟨1, "a@x.com", "EMPLOYEE"⟩ none
    (by intro m hm; simp at hm)

/-! ## C9: audit records on entity creation -/

/-- C9: `log_model_save` computes `changes = {'action': 'created'}` for a
creation and then filters the write through
`changes and changes != {'action': 'created'}`, so no audit record is ever
written for a creation of an audited model — contradicting both the claim
and the code's own comment, which targets only no-op updates. -/
theorem log_model_save_create_writes_nothing (pkStored : Bool)
    (fields : List (String × String × String)) :
    log_model_save true true pkStored fields = none := by
  rfl

/-! ## C10: deleting a project with tasks -/

/-- C10, confirmed: a project with at least one task is refused deletion
with the error outcome and a completely unchanged store, and a project
with no tasks is removed by the delete. -/
theorem destroy_project_blocks_on_tasks (db : DB) (projectId : Nat) :
    ((∃ t ∈ db.tasks, t.project = projectId) →
        destroy_project db projectId = (DestroyResult.errorHasTasks, db))
    ∧ ((∀ t ∈ db.tasks, t.project ≠ projectId) →
        (destroy_project db projectId).1 = DestroyResult.deleted
          ∧ ∀ p ∈ (destroy_project db projectId).2.projects, p.id ≠ projectId) := by
  constructor
  · rintro ⟨t, ht, hp⟩
    unfold destroy_project
    have hany : db.tasks.any (fun t => t.project == projectId) = true := by
      rw [List.any_eq_true]
      exact ⟨t, ht, by simp [hp]⟩
    rw [if_pos hany]
  · intro hnone
    have hfalse : db.tasks.any (fun t => t.project == projectId) = false := by
      rw [List.any_eq_false]
      intro t ht
      simp [hnone t ht]
    unfold destroy_project
    rw [if_neg (by simp [hfalse])]
    refine ⟨rfl, ?_⟩
    intro p hp
    have h2 := (List.mem_filter.mp hp).2
    simpa using h2

/-- C10, witness: a concrete one-task project is refused deletion with the
store unchanged. -/
theorem destroy_project_blocks_on_tasks_witness :
    destroy_project ⟨[], [⟨1, none⟩], [], [], [⟨20, 1⟩], 50⟩ 1 =
      (DestroyResult.errorHasTasks, ⟨[], [⟨1, none⟩], [], [], [⟨20, 1⟩], 50⟩) :=
  (destroy_project_blocks_on_tasks ⟨[], [⟨1, none⟩], [], [], [⟨20, 1⟩], 50⟩ 1).1
    ⟨⟨20, 1⟩, by simp, rfl⟩

end ERMSThm
